import Mathlib

/-!
Verification of the recipe API backend (Django/DRF recipe project).

The development shallowly embeds the custom logic of the repository:

* `RecipeViewSet._params_to_ints` and `RecipeViewSet.get_queryset`
  (src/app/recipe/views.py): parsing the comma-separated `ingredients`
  query parameter and building the owner-scoped, ingredient-filtered,
  ordered, de-duplicated queryset;
* `IngredientViewSet.get_queryset` (src/app/recipe/views.py);
* `RecipeViewSet.upload_image` (src/app/recipe/views.py), with the
  serializer's image validation abstracted as a boolean predicate;
* the user manager (`create_user` / email normalization), the serializer's
  ingredient replacement on partial update, and `recipe_image_file_path`,
  which are code of this repository not present under src/ and are
  therefore modelled from the spec (their doc comments say so explicitly).

Strings are embedded as `List Char`.  Python exceptions (the `ValueError`
raised by `int(...)` on a non-numeric string) are embedded by returning
`Option`/`none`: a `none` result models an uncaught exception propagating
out of the function.
-/

namespace RecipeApi

/-! ### Python string and integer primitives used by views.py

`_params_to_ints` is `[int(str_id) for str_id in qs.split(",")]`.  We embed
Python's `str.split` with a one-character separator and Python's `int`
constructor on strings. -/

/-- Python's `str.split(",")`: splits at every comma; the empty string yields
one empty segment, and adjacent commas yield empty segments. -/
def splitComma : List Char → List (List Char)
  | [] => [[]]
  | c :: rest =>
    if c = ',' then [] :: splitComma rest
    else
      match splitComma rest with
      | [] => [[c]]
      | seg :: segs => (c :: seg) :: segs

/-- The whitespace characters stripped by Python's `int` before parsing
(space, tab, newline, carriage return, vertical tab, form feed). -/
def isPySpace (c : Char) : Bool :=
  c = ' ' || c = '\t' || c = '\n' || c = '\r' || c = Char.ofNat 11 || c = Char.ofNat 12

/-- Strip leading and trailing whitespace, as Python's `int` does on its
string argument. -/
def pyStrip (l : List Char) : List Char :=
  ((l.dropWhile isPySpace).reverse.dropWhile isPySpace).reverse

/-- After its first character, the digit string accepted by Python's `int`
may contain single underscores, each of which must be followed by a digit. -/
def digitsTail : List Char → Bool
  | [] => true
  | c :: rest =>
    if c = '_' then
      match rest with
      | [] => false
      | d :: rest2 => d.isDigit && digitsTail rest2
    else c.isDigit && digitsTail rest

/-- The digit part accepted by Python's `int`: nonempty, starts with a
decimal digit, and may contain single underscores between digits. -/
def pyDigits : List Char → Bool
  | [] => false
  | c :: rest => c.isDigit && digitsTail rest

/-- Numeric value of one decimal digit character. -/
def digitVal (c : Char) : Nat := c.toNat - 48

/-- Value of a string of decimal digits, most significant first. -/
def natOfDigits (l : List Char) : Nat :=
  l.foldl (fun acc c => 10 * acc + digitVal c) 0

/-- Value of a digit string as read by Python's `int`, ignoring the
underscore digit separators. -/
def pyIntVal (l : List Char) : Nat :=
  natOfDigits (l.filter (fun c => c ≠ '_'))

/-- Parse an already-stripped string the way Python's `int` does: an
optional sign followed by a digit string.  `none` models a raised
`ValueError`. -/
def pyIntCore : List Char → Option Int
  | [] => none
  | c :: rest =>
    if c = '+' then
      if pyDigits rest then some ((pyIntVal rest : Nat) : Int) else none
    else if c = '-' then
      if pyDigits rest then some (-((pyIntVal rest : Nat) : Int)) else none
    else
      if pyDigits (c :: rest) then some ((pyIntVal (c :: rest) : Nat) : Int) else none

/-- Python's `int(s)` for a string `s`: strip whitespace, then parse an
optional sign and a digit string.  `none` models a raised `ValueError`. -/
def pyInt (l : List Char) : Option Int :=
  pyIntCore (pyStrip l)

/-- Apply Python's `int` to every segment; the first failure aborts the list
comprehension with an uncaught `ValueError`, modelled by `none`. -/
def mapIntAll : List (List Char) → Option (List Int)
  | [] => some []
  | s :: rest =>
    match pyInt s, mapIntAll rest with
    | some v, some vs => some (v :: vs)
    | _, _ => none

/-- Embedding of `RecipeViewSet._params_to_ints` (views.py line 34-35):
`[int(str_id) for str_id in qs.split(",")]`.  A `none` result models the
uncaught `ValueError` raised by `int` on a non-numeric segment. -/
def params_to_ints (qs : List Char) : Option (List Int) :=
  mapIntAll (splitComma qs)

/-- Join segments with commas; inverse of `splitComma` on comma-free
segments.  Used to state what a "comma-separated sequence of numerals" is. -/
def joinComma : List (List Char) → List Char
  | [] => []
  | [s] => s
  | s :: rest => s ++ ',' :: joinComma rest

/-- A decimal integer numeral: a nonempty string of decimal digits. -/
def IsNumeral (s : List Char) : Prop :=
  s ≠ [] ∧ ∀ c ∈ s, c.isDigit = true

instance (s : List Char) : Decidable (IsNumeral s) := by
  unfold IsNumeral; infer_instance

/-! ### The persisted data model, as the queryset code sees it

A recipe row carries its primary key `id`, the owning user's primary key
`user`, and the primary keys of its many-to-many `ingredients`.  An
ingredient row carries `id`, owner `user` and `name`.  Primary keys are
embedded as `Nat`. -/

structure Recipe where
  id : Nat
  user : Nat
  ingredients : List Nat
deriving DecidableEq

structure Ingredient where
  id : Nat
  user : Nat
  name : String
deriving DecidableEq

/-! ### RecipeViewSet.get_queryset (views.py lines 37-45) -/

/-- The ordering used by `order_by("-id")`: descending recipe id. -/
def idDescOrder (a b : Recipe) : Prop := b.id ≤ a.id

instance : DecidableRel idDescOrder := fun a b => Nat.decLe b.id a.id

instance : IsTotal Recipe idDescOrder := ⟨fun a b => Nat.le_total b.id a.id⟩

instance : IsTrans Recipe idDescOrder := ⟨fun _ _ _ h1 h2 => Nat.le_trans h2 h1⟩

/-- Embedding of `order_by("-id")`: sort the rows by descending id. -/
def orderByIdDesc (l : List Recipe) : List Recipe :=
  List.insertionSort idDescOrder l

/-- Embedding of `.distinct()`: SQL `SELECT DISTINCT` removes duplicate
rows. -/
def distinctRows (l : List Recipe) : List Recipe := l.dedup

/-- Embedding of `.filter(ingredients__id__in=ingredient_ids)` on the
many-to-many relation: the SQL join yields one row of the recipe for every
one of its ingredients whose id is in the requested list, so a recipe
matching several requested ids appears several times until `distinct()`. -/
def filterByIngredientIds (l : List Recipe) (ids : List Int) : List Recipe :=
  l.flatMap (fun r =>
    (r.ingredients.filter (fun (i : Nat) => decide ((i : Int) ∈ ids))).map (fun _ => r))

/-- Embedding of `RecipeViewSet.get_queryset` (views.py lines 37-45).
`db` is the `Recipe.objects.all()` table, `user` the authenticated
`request.user`, `ingredientsParam` the raw `ingredients` query parameter
(`none` when absent).  Python's `if ingredients:` is false for both `None`
and the empty string.  A `none` result models the uncaught `ValueError`
propagating out of `_params_to_ints`. -/
def recipeGetQueryset (db : List Recipe) (user : Nat)
    (ingredientsParam : Option (List Char)) : Option (List Recipe) :=
  let filtered : Option (List Recipe) :=
    match ingredientsParam with
    | none => some db
    | some qs =>
      if qs = [] then some db
      else
        match params_to_ints qs with
        | some ids => some (filterByIngredientIds db ids)
        | none => none
  filtered.map (fun queryset =>
    distinctRows (orderByIdDesc (queryset.filter (fun r => r.user == user))))

/-! ### IngredientViewSet.get_queryset (views.py lines 80-81) -/

/-- The ordering used by `order_by("-name")`: descending name. -/
def nameDescOrder (a b : Ingredient) : Prop := b.name ≤ a.name

instance : DecidableRel nameDescOrder :=
  fun a b => inferInstanceAs (Decidable (b.name ≤ a.name))

/-- Embedding of `order_by("-name")`. -/
def orderByNameDesc (l : List Ingredient) : List Ingredient :=
  List.insertionSort nameDescOrder l

/-- Embedding of `IngredientViewSet.get_queryset` (views.py lines 80-81):
`self.queryset.filter(user=self.request.user).order_by("-name")`. -/
def ingredientGetQueryset (db : List Ingredient) (user : Nat) : List Ingredient :=
  orderByNameDesc (db.filter (fun i => i.user == user))

/-! ### RecipeViewSet.upload_image (views.py lines 58-66) -/

/-- The recipe state the upload action touches: its stored image. -/
structure RecipeImage where
  image : Option String
deriving DecidableEq

/-- The response body: `serializer.data` (the serialized recipe, image field
included) on success, `serializer.errors` on validation failure. -/
inductive UploadBody where
  | data (serialized : RecipeImage)
  | errors
deriving DecidableEq

structure UploadOutcome where
  status : Nat
  body : UploadBody
  recipeAfter : RecipeImage
deriving DecidableEq

def HTTP_200_OK : Nat := 200

def HTTP_400_BAD_REQUEST : Nat := 400

/-- Embedding of `RecipeViewSet.upload_image` (views.py lines 58-66).  The
serializer's image validation is framework code, abstracted as the boolean
predicate `valid`; `serializer.save()` stores the validated payload as the
recipe's image, and `serializer.data` serializes the updated recipe. -/
def upload_image (valid : String → Bool) (recipe : RecipeImage)
    (payload : String) : UploadOutcome :=
  if valid payload then
    let saved : RecipeImage := { image := some payload }
    { status := HTTP_200_OK, body := UploadBody.data saved, recipeAfter := saved }
  else
    { status := HTTP_400_BAD_REQUEST, body := UploadBody.errors, recipeAfter := recipe }

/-! ### Code of this repository not present under src/

The user manager (core/models.py), the recipe serializer
(recipe/serializers.py) and `recipe_image_file_path` (core/models.py) are
code of this repository whose files are not under src/; only their tests
are.  They are modelled from the spec, as their doc comments state. -/

/-- Split a string at its LAST occurrence of `sep`, like Python's
`rsplit(sep, 1)`; `none` when `sep` does not occur. -/
def splitAtLast (sep : Char) : List Char → Option (List Char × List Char)
  | [] => none
  | c :: rest =>
    match splitAtLast sep rest with
    | some (pre, post) => some (c :: pre, post)
    | none => if c = sep then some ([], rest) else none

/-- Modelled from the spec: the user manager in core/models.py is not under
src/.  The spec says the stored email is "normalized by lower-casing the
domain part"; the email is split at its last at-sign, the part after it is
lower-cased and the part before it is preserved (an email without an
at-sign is left unchanged), matching test_new_user_email_normalized. -/
def normalize_email (e : List Char) : List Char :=
  match splitAtLast '@' e with
  | some (loc, dom) => loc ++ '@' :: dom.map Char.toLower
  | none => e

structure UserRec where
  email : List Char
  password : String
deriving DecidableEq

/-- Modelled from the spec: the user manager in core/models.py is not under
src/.  The spec says users are "created via a manager that rejects empty
email with a validation error" and that the stored email is normalized;
`none` models the raised `ValueError`, matching
test_new_user_without_email_raises_error. -/
def create_user (email : List Char) (password : String) : Option UserRec :=
  if email = [] then none
  else some { email := normalize_email email, password := password }

/-- Modelled from the spec: the recipe serializer (recipe/serializers.py) is
not under src/.  The spec says a partial update whose payload contains an
ingredients list "fully replaces the set (including clearing to empty)",
while a payload without an ingredients key leaves the recipe unchanged. -/
def partialUpdateIngredients (r : Recipe) (payload : Option (List Nat)) : Recipe :=
  match payload with
  | none => r
  | some ings => { r with ingredients := ings }

/-- Extension of a filename: the part after its last dot (empty when the
filename has no dot). -/
def fileExtension (filename : List Char) : List Char :=
  match splitAtLast '.' filename with
  | some (_, ext) => ext
  | none => []

/-- Modelled from the spec: `recipe_image_file_path` in core/models.py is
not under src/.  The spec says the output is "a path of the form
uploads/recipe/<random-uuid>.<original-extension>"; the UUID generator is
passed explicitly as `uuid`, modelling the mocked generator of
test_recipe_file_name_uuid. -/
def recipe_image_file_path (uuid : List Char) (filename : List Char) : List Char :=
  "uploads/recipe/".toList ++ uuid ++ '.' :: fileExtension filename

/-! ### Concrete rows used to instantiate the theorems -/

def recipeA : Recipe := { id := 1, user := 1, ingredients := [1] }

def recipeB : Recipe := { id := 2, user := 1, ingredients := [2] }

def ingSalt : Ingredient := { id := 1, user := 1, name := "Salt" }

def userTest2 : UserRec :=
  { email := "Test2@example.com".toList, password := "sample123" }

/-! ### Lemmas about the Python primitives -/

theorem splitComma_no_comma (l : List Char) (h : ',' ∉ l) : splitComma l = [l] := by
  induction l with
  | nil => rfl
  | cons c rest ih =>
    have hc : c ≠ ',' := (List.ne_of_not_mem_cons h).symm
    have hrest : ',' ∉ rest := List.not_mem_of_not_mem_cons h
    unfold splitComma
    rw [if_neg hc, ih hrest]

theorem splitComma_append (s t : List Char) (h : ',' ∉ s) :
    splitComma (s ++ ',' :: t) = s :: splitComma t := by
  induction s with
  | nil => simp [splitComma]
  | cons c s2 ih =>
    have hc : c ≠ ',' := (List.ne_of_not_mem_cons h).symm
    have hs : ',' ∉ s2 := List.not_mem_of_not_mem_cons h
    simp only [List.cons_append]
    show (if c = ',' then [] :: splitComma (s2 ++ ',' :: t)
      else match splitComma (s2 ++ ',' :: t) with
        | [] => [[c]]
        | seg :: segs => (c :: seg) :: segs) = (c :: s2) :: splitComma t
    rw [if_neg hc, ih hs]

theorem splitComma_joinComma (segs : List (List Char)) (hne : segs ≠ [])
    (h : ∀ s ∈ segs, ',' ∉ s) : splitComma (joinComma segs) = segs := by
  induction segs with
  | nil => exact absurd rfl hne
  | cons s rest ih =>
    cases rest with
    | nil => exact splitComma_no_comma s (h s (List.mem_cons_self s []))
    | cons t rest2 =>
      have hjoin : joinComma (s :: t :: rest2) = s ++ ',' :: joinComma (t :: rest2) := rfl
      rw [hjoin, splitComma_append _ _ (h s (List.mem_cons_self _ _)),
        ih (by simp) (fun x hx => h x (List.mem_cons_of_mem s hx))]

theorem not_isPySpace_of_isDigit (c : Char) (h : c.isDigit = true) :
    isPySpace c = false := by
  by_contra hc
  rw [Bool.not_eq_false] at hc
  unfold isPySpace at hc
  simp only [Bool.or_eq_true, decide_eq_true_eq] at hc
  rcases hc with ((((rfl | rfl) | rfl) | rfl) | rfl) | rfl <;> exact absurd h (by decide)

theorem dropWhile_eq_self_of_digits (l : List Char)
    (h : ∀ c ∈ l, c.isDigit = true) : l.dropWhile isPySpace = l := by
  cases l with
  | nil => rfl
  | cons c rest =>
    rw [List.dropWhile_cons, not_isPySpace_of_isDigit c (h c (List.mem_cons_self c rest))]
    simp

theorem pyStrip_digits (l : List Char) (h : ∀ c ∈ l, c.isDigit = true) :
    pyStrip l = l := by
  unfold pyStrip
  rw [dropWhile_eq_self_of_digits l h,
    dropWhile_eq_self_of_digits l.reverse (fun c hc => h c (List.mem_reverse.mp hc)),
    List.reverse_reverse]

theorem digitsTail_of_digits (l : List Char) (h : ∀ c ∈ l, c.isDigit = true) :
    digitsTail l = true := by
  induction l with
  | nil => rfl
  | cons c rest ih =>
    have hc := h c (List.mem_cons_self c rest)
    have hund : c ≠ '_' := fun he => absurd hc (by rw [he]; decide)
    unfold digitsTail
    rw [if_neg hund, hc, ih (fun d hd => h d (List.mem_cons_of_mem c hd))]
    rfl

theorem pyDigits_of_digits (l : List Char) (hne : l ≠ [])
    (h : ∀ c ∈ l, c.isDigit = true) : pyDigits l = true := by
  obtain ⟨c, rest, rfl⟩ := List.exists_cons_of_ne_nil hne
  show (c.isDigit && digitsTail rest) = true
  rw [h c (List.mem_cons_self c rest),
    digitsTail_of_digits rest (fun d hd => h d (List.mem_cons_of_mem c hd))]
  rfl

theorem pyIntVal_of_digits (l : List Char) (h : ∀ c ∈ l, c.isDigit = true) :
    pyIntVal l = natOfDigits l := by
  unfold pyIntVal
  congr 1
  rw [List.filter_eq_self]
  intro c hc
  have hd := h c hc
  simp only [ne_eq, decide_eq_true_eq]
  intro he
  exact absurd hd (by rw [he]; decide)

theorem pyInt_of_digits (l : List Char) (hne : l ≠ [])
    (h : ∀ c ∈ l, c.isDigit = true) :
    pyInt l = some ((natOfDigits l : Nat) : Int) := by
  unfold pyInt
  rw [pyStrip_digits l h]
  obtain ⟨c, rest, rfl⟩ := List.exists_cons_of_ne_nil hne
  have hc := h c (List.mem_cons_self c rest)
  have hplus : c ≠ '+' := fun he => absurd hc (by rw [he]; decide)
  have hminus : c ≠ '-' := fun he => absurd hc (by rw [he]; decide)
  show (if c = '+' then
      if pyDigits rest then some ((pyIntVal rest : Nat) : Int) else none
    else if c = '-' then
      if pyDigits rest then some (-((pyIntVal rest : Nat) : Int)) else none
    else
      if pyDigits (c :: rest) then some ((pyIntVal (c :: rest) : Nat) : Int)
      else none) = some ((natOfDigits (c :: rest) : Nat) : Int)
  rw [if_neg hplus, if_neg hminus, if_pos (pyDigits_of_digits _ (by simp) h),
    pyIntVal_of_digits _ h]

theorem mapIntAll_of_numerals (segs : List (List Char))
    (h : ∀ s ∈ segs, IsNumeral s) :
    mapIntAll segs = some (segs.map (fun s => ((natOfDigits s : Nat) : Int))) := by
  induction segs with
  | nil => rfl
  | cons s rest ih =>
    obtain ⟨hne, hdig⟩ := h s (List.mem_cons_self s rest)
    unfold mapIntAll
    rw [pyInt_of_digits s hne hdig, ih (fun x hx => h x (List.mem_cons_of_mem s hx))]
    rfl

theorem mapIntAll_none (segs : List (List Char))
    (h : ∃ s ∈ segs, pyInt s = none) : mapIntAll segs = none := by
  induction segs with
  | nil => simp at h
  | cons s rest ih =>
    obtain ⟨t, ht, hnone⟩ := h
    rcases List.mem_cons.mp ht with rfl | htr
    · unfold mapIntAll
      rw [hnone]
    · unfold mapIntAll
      rw [ih ⟨t, htr, hnone⟩]
      cases pyInt s <;> rfl

theorem comma_not_mem_of_numeral (s : List Char) (h : IsNumeral s) : ',' ∉ s :=
  fun hc => absurd (h.2 ',' hc) (by decide)

/-- C1: for every string that is a comma-separated sequence of decimal
integer numerals, the viewset helper `_params_to_ints` returns the list of
the corresponding integers, in the same order as they appear in the input
string, with one output element per comma-separated segment. -/
theorem params_to_ints_numeral_sequence (segs : List (List Char))
    (hne : segs ≠ []) (h : ∀ s ∈ segs, IsNumeral s) :
    params_to_ints (joinComma segs) =
      some (segs.map (fun s => ((natOfDigits s : Nat) : Int))) := by
  unfold params_to_ints
  rw [splitComma_joinComma segs hne (fun s hs => comma_not_mem_of_numeral s (h s hs))]
  exact mapIntAll_of_numerals segs h

theorem params_to_ints_numeral_sequence_witness :
    params_to_ints (joinComma [['3'], ['1', '7'], ['4', '2']]) = some [3, 17, 42] := by
  rw [params_to_ints_numeral_sequence [['3'], ['1', '7'], ['4', '2']]
    (by decide) (by decide)]
  decide

/-- C2: for every input string with a comma-separated segment that Python's
int does not accept as a decimal integer numeral, `_params_to_ints` raises
an uncaught ValueError (modelled by `none`) rather than returning a value:
no validation of the parameter happens before the conversion. -/
theorem params_to_ints_invalid_segment (qs : List Char)
    (h : ∃ s ∈ splitComma qs, pyInt s = none) :
    params_to_ints qs = none :=
  mapIntAll_none (splitComma qs) h

theorem params_to_ints_invalid_segment_witness :
    params_to_ints ['1', ',', 'a', 'b', 'c'] = none :=
  params_to_ints_invalid_segment ['1', ',', 'a', 'b', 'c'] (by decide)

/-! ### Lemmas about the querysets -/

theorem mem_distinct_orderBy (l : List Recipe) (r : Recipe) :
    r ∈ distinctRows (orderByIdDesc l) ↔ r ∈ l := by
  unfold distinctRows orderByIdDesc
  rw [List.mem_dedup, List.mem_insertionSort]

theorem recipeGetQueryset_no_param (db : List Recipe) (u : Nat) :
    recipeGetQueryset db u none =
      some (distinctRows (orderByIdDesc (db.filter (fun r => r.user == u)))) := rfl

theorem recipeGetQueryset_some_param (db : List Recipe) (u : Nat) (qs : List Char)
    (ids : List Int) (hqs : qs ≠ []) (hids : params_to_ints qs = some ids) :
    recipeGetQueryset db u (some qs) =
      some (distinctRows (orderByIdDesc
        ((filterByIngredientIds db ids).filter (fun r => r.user == u)))) := by
  show (if qs = [] then some db
    else match params_to_ints qs with
      | some ids2 => some (filterByIngredientIds db ids2)
      | none => none).map
      (fun queryset =>
        distinctRows (orderByIdDesc (queryset.filter (fun r => r.user == u)))) = _
  rw [if_neg hqs, hids]
  rfl

/-- C3: for every authenticated request, every record in the recipe
viewset's queryset and in the ingredient viewset's queryset is owned by the
requesting user; records of other users never appear. -/
theorem querysets_user_scoped (db : List Recipe) (idb : List Ingredient) (u : Nat)
    (p : Option (List Char)) (res : List Recipe)
    (hres : recipeGetQueryset db u p = some res) :
    (∀ r ∈ res, r.user = u) ∧ ∀ i ∈ ingredientGetQueryset idb u, i.user = u := by
  constructor
  · intro r hr
    obtain ⟨x, _, hgx⟩ := Option.map_eq_some'.mp hres
    subst hgx
    simp only [mem_distinct_orderBy, List.mem_filter, beq_iff_eq] at hr
    exact hr.2
  · intro i hi
    unfold ingredientGetQueryset orderByNameDesc at hi
    simp only [List.mem_insertionSort, List.mem_filter, beq_iff_eq] at hi
    exact hi.2

theorem querysets_user_scoped_witness : recipeA.user = 1 :=
  (querysets_user_scoped [recipeA] [ingSalt] 1 none [recipeA] (by decide)).1
    recipeA (List.mem_cons_self recipeA [])

theorem mem_filterByIngredientIds (db : List Recipe) (ids : List Int) (r : Recipe) :
    r ∈ filterByIngredientIds db ids ↔
      r ∈ db ∧ ∃ i : Nat, i ∈ r.ingredients ∧ (i : Int) ∈ ids := by
  unfold filterByIngredientIds
  rw [List.mem_flatMap]
  constructor
  · rintro ⟨r2, hr2, hmem⟩
    rw [List.mem_map] at hmem
    obtain ⟨i, hi, heq⟩ := hmem
    subst heq
    rw [List.mem_filter] at hi
    exact ⟨hr2, i, hi.1, of_decide_eq_true hi.2⟩
  · rintro ⟨hdb, i, hi, hin⟩
    refine ⟨r, hdb, ?_⟩
    rw [List.mem_map]
    exact ⟨i, List.mem_filter.mpr ⟨hi, decide_eq_true hin⟩, rfl⟩

/-- C4: when the recipe list request carries a nonempty ingredients query
parameter that parses to the id list `ids`, the returned recipe set is
exactly the requesting user's recipes having at least one ingredient whose
id is in `ids`. -/
theorem recipe_list_filtered_by_ingredients (db : List Recipe) (u : Nat)
    (qs : List Char) (ids : List Int) (res : List Recipe) (r : Recipe)
    (hqs : qs ≠ []) (hids : params_to_ints qs = some ids)
    (hres : recipeGetQueryset db u (some qs) = some res) :
    r ∈ res ↔ r ∈ db ∧ r.user = u ∧ ∃ i : Nat, i ∈ r.ingredients ∧ (i : Int) ∈ ids := by
  rw [recipeGetQueryset_some_param db u qs ids hqs hids] at hres
  have hres2 := Option.some.inj hres
  subst hres2
  rw [mem_distinct_orderBy, List.mem_filter, mem_filterByIngredientIds]
  constructor
  · rintro ⟨⟨hdb, hex⟩, hu⟩
    exact ⟨hdb, beq_iff_eq.mp hu, hex⟩
  · rintro ⟨hdb, hu, hex⟩
    exact ⟨⟨hdb, hex⟩, beq_iff_eq.mpr hu⟩

theorem recipe_list_filtered_by_ingredients_witness :
    recipeA ∈ [recipeA] ↔
      recipeA ∈ [recipeA, recipeB] ∧ recipeA.user = 1 ∧
        ∃ i : Nat, i ∈ recipeA.ingredients ∧ (i : Int) ∈ [(1 : Int)] :=
  recipe_list_filtered_by_ingredients [recipeA, recipeB] 1 ['1'] [1] [recipeA]
    recipeA (by decide) (by decide) (by decide)

/-- C10: every recipe list queryset result is duplicate-free (each recipe
appears exactly once even when it matches several requested ingredient ids,
thanks to distinct()) and is ordered by descending recipe id. -/
theorem recipe_list_nodup_sorted (db : List Recipe) (u : Nat)
    (p : Option (List Char)) (res : List Recipe)
    (hres : recipeGetQueryset db u p = some res) :
    res.Nodup ∧ List.Sorted idDescOrder res ∧ ∀ r ∈ res, List.count r res = 1 := by
  obtain ⟨x, _, hgx⟩ := Option.map_eq_some'.mp hres
  subst hgx
  refine ⟨List.nodup_dedup _, ?_, ?_⟩
  · exact List.Pairwise.sublist (List.dedup_sublist _)
      (List.sorted_insertionSort idDescOrder _)
  · intro r hr
    exact List.count_eq_one_of_mem (List.nodup_dedup _) hr

theorem recipe_list_nodup_sorted_witness :
    ([recipeB, recipeA] : List Recipe).Nodup ∧
      List.Sorted idDescOrder [recipeB, recipeA] :=
  ⟨(recipe_list_nodup_sorted [recipeA, recipeB] 1 none [recipeB, recipeA]
      (by decide)).1,
    (recipe_list_nodup_sorted [recipeA, recipeB] 1 none [recipeB, recipeA]
      (by decide)).2.1⟩

/-! ### Lemmas about splitting at the last separator -/

theorem splitAtLast_eq_none (sep : Char) (l : List Char) (h : sep ∉ l) :
    splitAtLast sep l = none := by
  induction l with
  | nil => rfl
  | cons c rest ih =>
    have hc : c ≠ sep := (List.ne_of_not_mem_cons h).symm
    show (match splitAtLast sep rest with
      | some (pre, post) => some (c :: pre, post)
      | none => if c = sep then some ([], rest) else none) = none
    rw [ih (List.not_mem_of_not_mem_cons h), if_neg hc]

theorem splitAtLast_append (sep : Char) (pre post : List Char) (h : sep ∉ post) :
    splitAtLast sep (pre ++ sep :: post) = some (pre, post) := by
  induction pre with
  | nil =>
    show (match splitAtLast sep post with
      | some (p2, q2) => some (sep :: p2, q2)
      | none => if sep = sep then some ([], post) else none) = some ([], post)
    rw [splitAtLast_eq_none sep post h, if_pos rfl]
  | cons c pre2 ih =>
    show (match splitAtLast sep (pre2 ++ sep :: post) with
      | some (p2, q2) => some (c :: p2, q2)
      | none => if c = sep then some ([], pre2 ++ sep :: post) else none) =
      some (c :: pre2, post)
    rw [ih]

/-! ### The spec-modelled user manager, serializer update and image path -/

/-- C5: a partial update whose payload contains an ingredients list leaves
the recipe with exactly the ingredients named in the payload: previously
attached ingredients absent from the payload are detached, and an empty
payload list clears the recipe to zero ingredients. -/
theorem partial_update_replaces_ingredients (r : Recipe) (ings : List Nat) :
    (partialUpdateIngredients r (some ings)).ingredients = ings ∧
      (∀ i ∈ r.ingredients, i ∉ ings →
        i ∉ (partialUpdateIngredients r (some ings)).ingredients) ∧
      (partialUpdateIngredients r (some [])).ingredients = [] := by
  refine ⟨rfl, ?_, rfl⟩
  intro i _ hnot
  exact hnot

theorem partial_update_replaces_ingredients_witness :
    (partialUpdateIngredients recipeA (some [5, 7])).ingredients = [5, 7] :=
  (partial_update_replaces_ingredients recipeA [5, 7]).1

/-- C6: for every accepted email of the form local at-sign domain, the
stored email has the domain part lower-cased and the local part preserved
exactly as given. -/
theorem create_user_normalizes_domain (loc dom : List Char) (p : String)
    (u : UserRec) (hdom : '@' ∉ dom)
    (hu : create_user (loc ++ '@' :: dom) p = some u) :
    u.email = loc ++ '@' :: dom.map Char.toLower := by
  have hne : loc ++ '@' :: dom ≠ [] := by cases loc <;> simp
  unfold create_user at hu
  rw [if_neg hne] at hu
  have hu2 := Option.some.inj hu
  subst hu2
  show normalize_email (loc ++ '@' :: dom) = loc ++ '@' :: dom.map Char.toLower
  unfold normalize_email
  rw [splitAtLast_append '@' loc dom hdom]

theorem create_user_normalizes_domain_witness :
    userTest2.email = "Test2".toList ++ '@' :: ("Example.com".toList).map Char.toLower :=
  create_user_normalizes_domain "Test2".toList "Example.com".toList "sample123"
    userTest2 (by decide) (by decide)

theorem normalize_email_ne_nil (e : List Char) (h : e ≠ []) :
    normalize_email e ≠ [] := by
  unfold normalize_email
  cases hsp : splitAtLast '@' e with
  | none => exact h
  | some pr =>
    obtain ⟨loc, dom⟩ := pr
    simp

/-- C7: user creation with an empty email raises a ValueError (modelled by
`none`) and creates no user; a created user never has an empty email. -/
theorem create_user_rejects_empty_email (p : String) (e : List Char) (u : UserRec)
    (hu : create_user e p = some u) :
    create_user [] p = none ∧ u.email ≠ [] := by
  refine ⟨rfl, ?_⟩
  unfold create_user at hu
  by_cases he : e = []
  · rw [if_pos he] at hu
    exact Option.noConfusion hu
  · rw [if_neg he] at hu
    have hu2 := Option.some.inj hu
    subst hu2
    exact normalize_email_ne_nil e he

theorem create_user_rejects_empty_email_witness :
    create_user [] "sample123" = none ∧ userTest2.email ≠ [] :=
  create_user_rejects_empty_email "sample123" "Test2@Example.com".toList userTest2
    (by decide)

/-- C8: for every filename with extension ext, the generated image path is
exactly uploads/recipe/<uuid>.<ext>; with the UUID generator fixed, the
output depends only on the extension of the input filename. -/
theorem recipe_image_file_path_form (uuid base ext other : List Char)
    (hext : '.' ∉ ext) (hother : fileExtension other = ext) :
    recipe_image_file_path uuid (base ++ '.' :: ext) =
        "uploads/recipe/".toList ++ uuid ++ '.' :: ext ∧
      recipe_image_file_path uuid other =
        recipe_image_file_path uuid (base ++ '.' :: ext) := by
  have hfe : fileExtension (base ++ '.' :: ext) = ext := by
    unfold fileExtension
    rw [splitAtLast_append '.' base ext hext]
  constructor
  · unfold recipe_image_file_path
    rw [hfe]
  · unfold recipe_image_file_path
    rw [hfe, hother]

theorem recipe_image_file_path_form_witness :
    recipe_image_file_path "test-uuid".toList
        ("example".toList ++ '.' :: "jpg".toList) =
        "uploads/recipe/".toList ++ "test-uuid".toList ++ '.' :: "jpg".toList ∧
      recipe_image_file_path "test-uuid".toList "example.jpg".toList =
        recipe_image_file_path "test-uuid".toList
          ("example".toList ++ '.' :: "jpg".toList) :=
  recipe_image_file_path_form "test-uuid".toList "example".toList "jpg".toList
    "example.jpg".toList (by decide) (by decide)

/-- C9: upload_image answers 200 with the serialized recipe (image field
included) exactly when the payload passes image validation, 400 with the
serializer's errors exactly when it fails, and the stored image changes
only in the 200 case. -/
theorem upload_image_status (v : String → Bool) (r0 : RecipeImage)
    (payload : String) :
    ((upload_image v r0 payload).status = HTTP_200_OK ↔ v payload = true) ∧
      ((upload_image v r0 payload).status = HTTP_400_BAD_REQUEST ↔
        v payload = false) ∧
      (v payload = true → (upload_image v r0 payload).body =
          UploadBody.data (upload_image v r0 payload).recipeAfter ∧
        (upload_image v r0 payload).recipeAfter.image = some payload) ∧
      (v payload = false → (upload_image v r0 payload).body = UploadBody.errors ∧
        (upload_image v r0 payload).recipeAfter = r0) := by
  cases hv : v payload <;>
    simp [upload_image, hv, HTTP_200_OK, HTTP_400_BAD_REQUEST]

theorem upload_image_status_witness :
    (upload_image (fun _ => true) { image := none } "img").status = HTTP_200_OK :=
  ((upload_image_status (fun _ => true) { image := none } "img").1).mpr rfl

end RecipeApi
